import Mathlib

/-!
Shallow embedding of the aiw-evidence scripts that the claims concern:

* `vm/scripts/aiw_backtest_1y_h7_top200_stopfirst.py` (snapshot 20251215_151057):
  per-candidate outcome classification and per-profile aggregation of the
  7-day-horizon backtest, with the three ambiguity policies.
* `vm/scripts/aiw_expand_creamy_to_all_profiles_v1.py` (snapshot 20251215_151057):
  cloning the base profile's creamy rows into profiles that have none.
* `vm/scripts/aiw_profile_metrics_enricher_v1.py` (snapshot 20251214_142718) and
  `vm/scripts/aiw_profile_metrics_enricher_v2.py` (snapshot 20251214_220653):
  per-candidate metric enrichment.

Numeric values are modelled as exact rationals (`ℚ`); the Python scripts use
IEEE doubles.  SQLite NULLs are modelled as `Option` fields, with the scripts'
`float(x or 0.0)` / `f(x)` coercions embedded explicitly.
-/

/-- Python's `float(x)` for a nullable DB value, as used by the scripts'
`f(x)` helper and by `float(r[col] or 0.0)`: `NULL` (and `0`) become `0.0`. -/
def fNum : Option ℚ → ℚ
  | Option.none => 0
  | some x => x

/-- `clamp(x, lo, hi)` as defined identically in both enricher scripts. -/
def clamp (x lo hi : ℚ) : ℚ :=
  if x < lo then lo else if x > hi then hi else x

/-- Python's built-in `round()` to an integer: round half to even. -/
def pyRound (q : ℚ) : ℤ :=
  let fl := ⌊q⌋
  let fr := q - fl
  if fr < 1/2 then fl
  else if 1/2 < fr then fl + 1
  else if fl % 2 = 0 then fl else fl + 1

/-- Two trailing decimal digits of `m % 100`, zero padded. -/
def twoDigits (m : ℕ) : String :=
  let d := m % 100
  (if d < 10 then "0" else "") ++ toString d

/-- Python's `"%.2f" % q` on the exact rational model: fixed two decimals,
rounding half to even (on actual doubles the representation error can move
a tie; the inputs used in this file are exact at two decimals). -/
def fmt2 (q : ℚ) : String :=
  let n := pyRound (q * 100)
  let m := n.natAbs
  (if n < 0 then "-" else "") ++ toString (m / 100) ++ "." ++ twoDigits m

/-- One row of the `AIW_A_CREAMY_LAYER` table, with the columns the four
scripts read or write.  Nullable numeric columns are `Option ℚ`. -/
structure CreamyRow where
  env_code : String
  run_date : String
  profile_id : String
  instrument_id : String
  broker_code : String
  direction : String
  quantity : Option ℚ
  entry_price : Option ℚ
  target_price : Option ℚ
  stop_loss : Option ℚ
  confidence : Option ℚ
  expected_return_pct : Option ℚ
  ai_recommendation : String
  ai_reason : String
  ranking_score : Option ℚ
  is_creamy : Bool
  display_rank : Option ℤ
  created_at : Option String
  updated_at : String
  deriving DecidableEq

namespace Backtest

/-- The `--amb_rule` choices of the backtest script. -/
inductive AmbRule
  | stop_first
  | skip
  | half_half
  deriving DecidableEq

/-- One row of `AIW_H_PRICE_EOD` as selected by the backtest
(`TRADE_DATE, HIGH_PRICE, LOW_PRICE, CLOSE_PRICE`). -/
structure EodBar where
  trade_date : String
  high : Option ℚ
  low : Option ℚ
  close : Option ℚ
  deriving DecidableEq

/-- The backtest's `pct(a, b)`: `(a / b * 100.0) if b else 0.0`. -/
def pct (a b : ℚ) : ℚ :=
  if b ≠ 0 then a / b * 100 else 0

/-- The per-profile counters and sums of the backtest's `stats` dict
(the source key `none` is `none_hit` here). -/
structure Stats where
  days : List String
  n : ℕ
  sum_edge : ℚ
  sum_conf : ℚ
  sum_roi : ℚ
  tgt_hit : ℕ
  sl_hit : ℕ
  amb : ℕ
  none_hit : ℕ
  win : ℕ
  lose : ℕ
  sum_realized : ℚ
  deriving DecidableEq

/-- The zero-initialised stats created by the script's `S(profile)`. -/
def initStats : Stats :=
  { days := [], n := 0, sum_edge := 0, sum_conf := 0, sum_roi := 0,
    tgt_hit := 0, sl_hit := 0, amb := 0, none_hit := 0,
    win := 0, lose := 0, sum_realized := 0 }

/-- `st["days"].add(rd)`: set insertion (only the cardinality is used). -/
def addDay (rd : String) (ds : List String) : List String :=
  if rd ∈ ds then ds else rd :: ds

/-- `max(f(x["HIGH_PRICE"]) for x in eods)` over the nonempty bar list
`e0 :: rest`. -/
def maxHighOf (e0 : EodBar) (rest : List EodBar) : ℚ :=
  (rest.map fun x => fNum x.high).foldl max (fNum e0.high)

/-- `min(f(x["LOW_PRICE"]) for x in eods)` over the nonempty bar list
`e0 :: rest`. -/
def minLowOf (e0 : EodBar) (rest : List EodBar) : ℚ :=
  (rest.map fun x => fNum x.low).foldl min (fNum e0.low)

/-- `f(eods[-1]["CLOSE_PRICE"])` over the nonempty bar list `e0 :: rest`. -/
def closeLastOf (e0 : EodBar) (rest : List EodBar) : ℚ :=
  fNum (List.getLastD rest e0).close

/-- The body of the backtest's inner loop for one taken candidate `r` on
run-date `rd` with forward bars `eods`, updating the profile's stats `st`.
Follows the source line by line: the trade count and the edge, confidence
and expected-return sums are added before the outcome is classified, and
under `skip` an ambiguous trade `continue`s before the realized sum. -/
def step (rule : AmbRule) (rd : String) (r : CreamyRow) (eods : List EodBar)
    (st : Stats) : Stats :=
  let st := { st with days := addDay rd st.days, n := st.n + 1 }
  let entry := fNum r.entry_price
  let target := fNum r.target_price
  let stop := fNum r.stop_loss
  let roi := fNum r.expected_return_pct
  let conf := fNum r.confidence
  let downside := if entry ≠ 0 then pct (entry - stop) entry else 0
  let edge := roi - downside
  let st := { st with sum_edge := st.sum_edge + edge,
                      sum_conf := st.sum_conf + conf,
                      sum_roi := st.sum_roi + roi }
  match eods with
  | [] => { st with none_hit := st.none_hit + 1 }
  | e0 :: rest =>
    let max_high := maxHighOf e0 rest
    let min_low := minLowOf e0 rest
    let close_last := closeLastOf e0 rest
    if (target > 0 ∧ max_high ≥ target) ∧ (stop > 0 ∧ min_low ≤ stop) then
      let st := { st with amb := st.amb + 1 }
      match rule with
      | AmbRule.skip => st
      | AmbRule.half_half =>
        let r_t := if entry ≠ 0 then pct (target - entry) entry else 0
        let r_s := if entry ≠ 0 then pct (stop - entry) entry else 0
        { st with sum_realized := st.sum_realized + 1/2 * (r_t + r_s) }
      | AmbRule.stop_first =>
        let realized := if entry ≠ 0 then pct (stop - entry) entry else 0
        { st with sl_hit := st.sl_hit + 1, lose := st.lose + 1,
                  sum_realized := st.sum_realized + realized }
    else if target > 0 ∧ max_high ≥ target then
      let realized := if entry ≠ 0 then pct (target - entry) entry else 0
      { st with tgt_hit := st.tgt_hit + 1, win := st.win + 1,
                sum_realized := st.sum_realized + realized }
    else if stop > 0 ∧ min_low ≤ stop then
      let realized := if entry ≠ 0 then pct (stop - entry) entry else 0
      { st with sl_hit := st.sl_hit + 1, lose := st.lose + 1,
                sum_realized := st.sum_realized + realized }
    else
      let realized := if entry ≠ 0 then pct (close_last - entry) entry else 0
      { st with none_hit := st.none_hit + 1,
                sum_realized := st.sum_realized + realized }

/-- One taken candidate together with its run-date and forward bars. -/
structure Trade where
  rd : String
  cand : CreamyRow
  eods : List EodBar
  deriving DecidableEq

/-- A profile's stats after processing its taken candidates in order. -/
def runStats (rule : AmbRule) (trades : List Trade) : Stats :=
  trades.foldl (fun st t => step rule t.rd t.cand t.eods st) initStats

/-- The per-profile summary row the backtest emits (exact values; the
source additionally rounds each value to 3 decimals for the CSV). -/
structure SummaryRow where
  trades : ℕ
  daysCount : ℕ
  avg_edge : ℚ
  avg_conf : ℚ
  avg_roi : ℚ
  tgt_hit_pct : ℚ
  sl_hit_pct : ℚ
  amb_pct : ℚ
  none_pct : ℚ
  win_pct : ℚ
  lose_pct : ℚ
  realized7d_avg : ℚ
  deriving DecidableEq

/-- Building the emitted summary row from a profile's stats. -/
def mkRow (st : Stats) : SummaryRow :=
  { trades := st.n,
    daysCount := st.days.length,
    avg_edge := st.sum_edge / st.n,
    avg_conf := st.sum_conf / st.n,
    avg_roi := st.sum_roi / st.n,
    tgt_hit_pct := pct st.tgt_hit st.n,
    sl_hit_pct := pct st.sl_hit st.n,
    amb_pct := pct st.amb st.n,
    none_pct := pct st.none_hit st.n,
    win_pct := pct st.win st.n,
    lose_pct := pct st.lose st.n,
    realized7d_avg := st.sum_realized / max 1 st.n }

end Backtest

namespace Expand

/-- The `WHERE ENV_CODE=? AND RUN_DATE=? AND IS_CREAMY=1` filter of the
expand script's queries. -/
def creamyB (env rd : String) (r : CreamyRow) : Bool :=
  r.env_code == env && r.run_date == rd && r.is_creamy

/-- `SELECT COUNT(*) ... WHERE ENV_CODE=? AND RUN_DATE=? AND PROFILE_ID=?
AND IS_CREAMY=1`. -/
def countCreamy (rows : List CreamyRow) (env rd pid : String) : ℕ :=
  (rows.filter fun r => creamyB env rd r && r.profile_id == pid).length

/-- The distinct `PROFILE_ID`s of the `GROUP BY PROFILE_ID` over the creamy
rows of the pair. -/
def creamyPids (rows : List CreamyRow) (env rd : String) : List String :=
  ((rows.filter (creamyB env rd)).map (fun r => r.profile_id)).dedup

/-- The base-profile query:
`GROUP BY PROFILE_ID ORDER BY c DESC, PROFILE_ID ASC LIMIT 1` — the profile
with the largest creamy row count, ties broken by the smaller id, or `none`
when the pair has no creamy rows.  `pickBetter` folds one candidate profile
into the current best choice. -/
def pickBetter (rows : List CreamyRow) (env rd : String)
    (best : Option String) (pid : String) : Option String :=
  match best with
  | Option.none => some pid
  | some b =>
    if countCreamy rows env rd pid > countCreamy rows env rd b ∨
        (countCreamy rows env rd pid = countCreamy rows env rd b ∧ pid < b)
      then some pid else some b

def basePick (rows : List CreamyRow) (env rd : String) : Option String :=
  (creamyPids rows env rd).foldl (pickBetter rows env rd) Option.none

/-- One cloned row of the expand script's `INSERT ... SELECT`: every column
copied, `PROFILE_ID` replaced by the destination profile,
`CREATED_AT` coalesced to `now` and `UPDATED_AT` set to `now`. -/
def cloneRow (pid now : String) (r : CreamyRow) : CreamyRow :=
  { r with profile_id := pid,
           created_at := some (r.created_at.getD now),
           updated_at := now }

/-- The rows inserted for destination profile `pid`: the base profile's
creamy rows of the pair, cloned. -/
def cloneRows (rows : List CreamyRow) (env rd base pid now : String) :
    List CreamyRow :=
  ((rows.filter fun r => creamyB env rd r && r.profile_id == base).map
    (cloneRow pid now))

/-- The loop body for one destination profile: skip the base profile, skip
profiles that already have a creamy row for the pair, otherwise append the
clones of the base profile's rows. -/
def expandStep (env rd base now : String) (acc : List CreamyRow)
    (pid : String) : List CreamyRow :=
  if pid = base then acc
  else if 0 < countCreamy acc env rd pid then acc
  else acc ++ cloneRows acc env rd base pid now

/-- The whole expand run on the table state `rows`: `profiles` is
`SELECT PROFILE_ID FROM AIW_C_PROFILE ORDER BY PROFILE_ID`; when the pair
has no creamy rows the script exits without touching the table. -/
def expand (profiles : List String) (env rd now : String)
    (rows : List CreamyRow) : List CreamyRow :=
  match basePick rows env rd with
  | Option.none => rows
  | some base => profiles.foldl (expandStep env rd base now) rows

end Expand

namespace Rex

/-- A single-character regex atom: a literal character, the `.` wildcard,
or a character class given as a membership test. -/
inductive RAtom
  | lit (c : Char)
  | dot
  | cls (p : Char → Bool)

/-- Whether an atom matches one character. -/
def amatch : RAtom → Char → Bool
  | RAtom.lit c, x => x == c
  | RAtom.dot, _ => true
  | RAtom.cls p, x => p x

/-- An item of a sequential regex.  Every quantifier of the five patterns in
`patch_reason` applies to a single-character atom, so quantified items carry
an atom; `opt` carries a whole optional group; `eos` is the `$` anchor. -/
inductive RItem
  | atom (a : RAtom)
  | star (a : RAtom)
  | plus (a : RAtom)
  | rep (a : RAtom) (lo hi : ℕ)
  | opt (g : List RItem)
  | eos

/-- Length of the maximal run of characters matching `a` at the front. -/
def runLen (a : RAtom) : List Char → ℕ
  | [] => 0
  | c :: s => if amatch a c then runLen a s + 1 else 0

mutual

/-- Backtracking matcher: `matchItems fuel items s` returns the suffix left
after matching `items` against a prefix of `s`, greedy quantifiers first,
or `none`.  `fuel` bounds the recursion depth; every use in this file
supplies more fuel than the search can consume. -/
def matchItems : ℕ → List RItem → List Char → Option (List Char)
  | 0, _, _ => Option.none
  | Nat.succ fuel, items, s =>
    match items with
    | [] => some s
    | RItem.atom a :: rest =>
      match s with
      | [] => Option.none
      | c :: s2 => if amatch a c then matchItems fuel rest s2 else Option.none
    | RItem.star a :: rest => tryRep fuel rest s 0 (runLen a s)
    | RItem.plus a :: rest => tryRep fuel rest s 1 (runLen a s)
    | RItem.rep a lo hi :: rest => tryRep fuel rest s lo (min hi (runLen a s))
    | RItem.opt g :: rest =>
      match matchItems fuel (g ++ rest) s with
      | some t => some t
      | Option.none => matchItems fuel rest s
    | RItem.eos :: rest =>
      if s.isEmpty then matchItems fuel rest [] else Option.none

/-- Try consuming `k, k-1, ..., lo` repetitions (greedy order) and then the
rest of the pattern. -/
def tryRep : ℕ → List RItem → List Char → ℕ → ℕ → Option (List Char)
  | 0, _, _, _, _ => Option.none
  | Nat.succ fuel, rest, s, lo, k =>
    if k < lo then Option.none
    else
      match matchItems fuel rest (s.drop k) with
      | some t => some t
      | Option.none =>
        match k with
        | 0 => Option.none
        | Nat.succ k2 => tryRep fuel rest s lo k2

end

/-- `re.sub` scanning: at each position try a match; on a match that
consumes at least one character emit the replacement and continue after it
(none of the patterns used here can match the empty string). -/
def reSubGo (re : List RItem) (repl : List Char) : ℕ → List Char → List Char
  | 0, s => s
  | Nat.succ n, s =>
    match matchItems 1000 re s with
    | some t =>
      if t.length < s.length then repl ++ reSubGo re repl n t
      else
        match s with
        | [] => repl
        | c :: s2 => c :: reSubGo re repl n s2
    | Option.none =>
      match s with
      | [] => []
      | c :: s2 => c :: reSubGo re repl n s2

/-- `re.sub(pattern, repl, s)` for the sequential patterns above. -/
def reSub (re : List RItem) (repl s : String) : String :=
  String.mk (reSubGo re repl.data (s.data.length + 1) s.data)

/-- A sequence of literal-character items for a plain text fragment. -/
def strLits (s : String) : List RItem :=
  s.data.map fun c => RItem.atom (RAtom.lit c)

/-- The class `[0-9]`. -/
def digitC : RAtom := RAtom.cls fun c => '0' ≤ c && c ≤ '9'

/-- The class `[A-Z_]`. -/
def upperC : RAtom := RAtom.cls fun c => ('A' ≤ c && c ≤ 'Z') || c == '_'

end Rex

namespace EnrichV1

open Rex

/-- Python `str.rstrip()` whitespace. -/
def isPySpace (c : Char) : Bool :=
  c == ' ' || c == '\t' || c == '\n' || c == '\r' || c == '\x0b' || c == '\x0c'

/-- Python `str.rstrip()`. -/
def rstrip (s : String) : String :=
  String.mk ((s.data.reverse.dropWhile isPySpace).reverse)

/-- `risk_params(risk_class)` of enricher v1:
`(min_roi_pct, max_roi_pct, rr_target)`. -/
def risk_params (risk_class : String) : ℚ × ℚ × ℚ :=
  if risk_class = "CONSERVATIVE" then (3/2, 4, 11/5)
  else if risk_class = "BALANCED" then (2, 7, 9/5)
  else if risk_class = "AGGRESSIVE" then (3, 12, 3/2)
  else (4, 18, 13/10)

/-- `norm_score(score, smin, smax)` of enricher v1. -/
def norm_score (score smin smax : ℚ) : ℚ :=
  if smax ≤ smin then 1/2
  else clamp ((score - smin) / (smax - smin)) 0 1

/-- `min(scores)` for the group `x :: xs`
(`scores = [float(r["RANKING_SCORE"] or 0.0) for r in plist]`). -/
def v1smin (x : CreamyRow) (xs : List CreamyRow) : ℚ :=
  (xs.map fun r => fNum r.ranking_score).foldl min (fNum x.ranking_score)

/-- `max(scores)` for the group `x :: xs`. -/
def v1smax (x : CreamyRow) (xs : List CreamyRow) : ℚ :=
  (xs.map fun r => fNum r.ranking_score).foldl max (fNum x.ranking_score)

/-- `float("%.2f" % roi)`: round to two decimals. -/
def round2 (q : ℚ) : ℚ :=
  (pyRound (q * 100) : ℚ) / 100

/-- First `re.sub` pattern of `patch_reason`, the raw string
`Expected return about\\s+[0-9]+(\\.[0-9]+)?%`.  The doubled backslashes
inside the raw string stand for one literal backslash character each, so
`\\s+` is a literal backslash followed by one or more letters `s`, and
`\\.` a literal backslash followed by the `.` wildcard. -/
def pat1 : List RItem :=
  strLits "Expected return about" ++
    [RItem.atom (RAtom.lit '\\'), RItem.plus (RAtom.lit 's'),
     RItem.plus digitC,
     RItem.opt [RItem.atom (RAtom.lit '\\'), RItem.atom RAtom.dot,
                RItem.plus digitC],
     RItem.atom (RAtom.lit '%')]

/-- Second pattern, the raw string `confidence\\s+[0-9]*\\.[0-9]+`. -/
def pat2 : List RItem :=
  strLits "confidence" ++
    [RItem.atom (RAtom.lit '\\'), RItem.plus (RAtom.lit 's'),
     RItem.star digitC,
     RItem.atom (RAtom.lit '\\'), RItem.atom RAtom.dot, RItem.plus digitC]

/-- Third pattern, the raw string `confidence\\s+\\d{1,3}/100`
(`\\d{1,3}` is a literal backslash then one to three letters `d`). -/
def pat3 : List RItem :=
  strLits "confidence" ++
    [RItem.atom (RAtom.lit '\\'), RItem.plus (RAtom.lit 's'),
     RItem.atom (RAtom.lit '\\'), RItem.rep (RAtom.lit 'd') 1 3] ++
    strLits "/100"

/-- Fourth pattern, the raw string `Risk bucket:\\s*[A-Z_]+`. -/
def pat4 : List RItem :=
  strLits "Risk bucket:" ++
    [RItem.atom (RAtom.lit '\\'), RItem.star (RAtom.lit 's'),
     RItem.plus upperC]

/-- Membership test of the character class `[CONF=\\d+/100\\]` of the fifth
pattern (`\\` inside the class is an escaped backslash). -/
def cls5 (c : Char) : Bool :=
  c == 'C' || c == 'O' || c == 'N' || c == 'F' || c == '=' || c == '\\' ||
    c == 'd' || c == '+' || c == '/' || c == '1' || c == '0'

/-- Fifth pattern, the raw string `\\s*\\[CONF=\\d+/100\\]\\s*$`: literal
backslash, `s*`, literal backslash, one character of the class, literal
backslash, `s*`, end anchor. -/
def pat5 : List RItem :=
  [RItem.atom (RAtom.lit '\\'), RItem.star (RAtom.lit 's'),
   RItem.atom (RAtom.lit '\\'), RItem.atom (RAtom.cls cls5),
   RItem.atom (RAtom.lit '\\'), RItem.star (RAtom.lit 's'), RItem.eos]

/-- `patch_reason(reason, roi, conf, bucket, rr)` of enricher v1: the five
substitutions, then `rstrip` and the appended
` [CONF=%d/100][RR=%.2f][RB=%s]` suffix. -/
def patch_reason (reason : String) (roi : ℚ) (conf : ℤ) (bucket : String)
    (rr : ℚ) : String :=
  let r := reason
  let r := reSub pat1 ("Expected return about " ++ fmt2 roi ++ "%") r
  let r := reSub pat2 ("confidence " ++ toString conf ++ "/100") r
  let r := reSub pat3 ("confidence " ++ toString conf ++ "/100") r
  let r := reSub pat4 ("Risk bucket: " ++ bucket) r
  let r := reSub pat5 "" r
  rstrip r ++ " [CONF=" ++ toString conf ++ "/100][RR=" ++ fmt2 rr ++
    "][RB=" ++ bucket ++ "]"

/-- The body of enricher v1's per-candidate loop: given the group's risk
class, score bounds and the timestamp, compute and store the new target,
stop, expected return, confidence, rationale and update timestamp.  There is
no guard on the entry price: every candidate of the group is updated. -/
def enrichV1row (risk_class : String) (smin smax : ℚ) (now : String)
    (r : CreamyRow) : CreamyRow :=
  let p := risk_params risk_class
  let roi_min := p.1
  let roi_max := p.2.1
  let rr_target := p.2.2
  let entry := fNum r.entry_price
  let score := fNum r.ranking_score
  let n := norm_score score smin smax
  let roi := round2 (roi_min + (roi_max - roi_min) * n)
  let sl_pct := roi / rr_target
  let target := entry * (1 + roi / 100)
  let stop := entry * (1 - sl_pct / 100)
  let conf := 50 + n * 35 + (rr_target - 1) * 10
  let confI : ℤ := pyRound (clamp conf 1 99)
  let rr := if entry > stop ∧ target > entry
    then (target - entry) / (entry - stop) else 0
  let new_reason := patch_reason r.ai_reason roi confI risk_class rr
  { r with target_price := some target,
           stop_loss := some stop,
           expected_return_pct := some roi,
           confidence := some (confI : ℚ),
           ai_reason := new_reason,
           updated_at := now }

end EnrichV1

namespace EnrichV2

/-- ASCII upper-casing of one character, as Python's `str.upper()` does on
the ASCII profile ids. -/
def upChar (c : Char) : Char :=
  if 'a' ≤ c && c ≤ 'z' then Char.ofNat (c.toNat - 32) else c

/-- Python's `str.upper()` (ASCII). -/
def upStr (s : String) : String :=
  String.mk (s.data.map upChar)

/-- Whether the first list is a prefix of the second. -/
def isPrefixL : List Char → List Char → Bool
  | [], _ => true
  | _ :: _, [] => false
  | a :: as, b :: bs => a == b && isPrefixL as bs

/-- Whether `needle` occurs inside the second list. -/
def containsL (needle : List Char) : List Char → Bool
  | [] => isPrefixL needle []
  | c :: rest => isPrefixL needle (c :: rest) || containsL needle rest

/-- Python's `needle in hay` substring test. -/
def hasSub (hay needle : String) : Bool :=
  containsL needle.data hay.data

/-- `risk_from_profile_id(pid)` of enricher v2. -/
def risk_from_profile_id (pid : String) : String :=
  let u := upStr pid
  if hasSub u "ULTRA" then "ULTRA_AGGRESSIVE"
  else if hasSub u "CONSERV" then "CONSERVATIVE"
  else if hasSub u "AGGRESS" then "AGGRESSIVE"
  else if hasSub u "BALANC" then "BALANCED"
  else "BALANCED"

/-- One entry of the `BASE` dict: profile baseline ROI, RR target and
confidence baseline. -/
structure BaseRow where
  roi : ℚ
  rr : ℚ
  conf : ℚ
  deriving DecidableEq

/-- `BASE.get(risk, BASE["BALANCED"])`. -/
def BASE (risk : String) : BaseRow :=
  if risk = "CONSERVATIVE" then ⟨11/4, 7/5, 80⟩
  else if risk = "BALANCED" then ⟨9/2, 9/5, 76⟩
  else if risk = "AGGRESSIVE" then ⟨15/2, 3/2, 72⟩
  else if risk = "ULTRA_AGGRESSIVE" then ⟨11, 27/20, 70⟩
  else ⟨9/2, 9/5, 76⟩

/-- The strength computation of enricher v2: `mx` is the group's
`COALESCE(MAX(DISPLAY_RANK), 0)` (with the `maxr.get(pid, 0)` default), the
script falls back to `mx = 200` when `mx <= 1`, and
`strength = 1.0 - (max(1, dr) - 1) / float(mx - 1)`. -/
def strengthV2 (dr mx : ℤ) : ℚ :=
  let mx2 : ℤ := if mx ≤ 1 then 200 else mx
  1 - ((max 1 dr - 1 : ℤ) : ℚ) / ((mx2 - 1 : ℤ) : ℚ)

/-- The values enricher v2 computes for one candidate. -/
structure V2Out where
  target : ℚ
  stop : ℚ
  conf : ℚ
  roi : ℚ
  reason : String
  deriving DecidableEq

/-- The body of enricher v2's per-candidate loop after the entry-price
guard, following the source line by line.  Note the UPDATE stores the
clamped `conf`, not the rounded `conf_int` (which only enters the rationale
text). -/
def enrichV2core (pid : String) (dr mx : ℤ) (entry : ℚ) : V2Out :=
  let risk := risk_from_profile_id pid
  let b := BASE risk
  let strength := strengthV2 dr mx
  let roi := b.roi * (7/10 + 3/5 * strength)
  let roi := clamp roi (b.roi * (3/5)) (b.roi * (3/2))
  let rr_target := b.rr
  let downside := clamp (roi / rr_target) (3/4) 15
  let target := entry * (1 + roi / 100)
  let stop := entry * (1 - downside / 100)
  let rr := (target - entry) / max (1/1000000000) (entry - stop)
  let conf := b.conf + (strength - 1/2) * 10 + (clamp rr (1/2) 3 - 3/2) * 4
                - max 0 (downside - 6) * (6/5)
  let conf := clamp conf 35 95
  let confI := pyRound conf
  let reason := "Profile=" ++ pid ++ " (" ++ risk ++ "). Exp " ++ fmt2 roi ++
    "% / Down " ++ fmt2 downside ++ "% / R:R " ++ fmt2 rr ++ ". Conf " ++
    toString confI ++ "/100. Entry " ++ fmt2 entry ++ ", Target " ++
    fmt2 target ++ ", SL " ++ fmt2 stop ++ "."
  ⟨target, stop, conf, roi, reason⟩

/-- The effect of one enricher-v2 pass on a row: a candidate with
`entry <= 0` is skipped (`continue`) and keeps every field; otherwise the
computed fields are stored.  `mx` is the group's max display rank. -/
def enrichV2row (mx : ℤ) (now : String) (r : CreamyRow) : CreamyRow :=
  let entry := fNum r.entry_price
  if entry ≤ 0 then r
  else
    let o := enrichV2core r.profile_id (r.display_rank.getD 0) mx entry
    { r with target_price := some o.target,
             stop_loss := some o.stop,
             confidence := some o.conf,
             expected_return_pct := some o.roi,
             ai_reason := o.reason,
             updated_at := now }

end EnrichV2

section ConcreteInputs

/-- The candidate of the end-to-end scenario: entry 100, target 110,
stop 95. -/
def c1cand : CreamyRow :=
  { env_code := "SIM", run_date := "2025-06-02", profile_id := "BALANCED",
    instrument_id := "X1", broker_code := "B1", direction := "BUY",
    quantity := some 1, entry_price := some 100, target_price := some 110,
    stop_loss := some 95, confidence := some 60,
    expected_return_pct := some 10, ai_recommendation := "BUY",
    ai_reason := "", ranking_score := some 1, is_creamy := true,
    display_rank := some 1, created_at := some "2025-06-02", updated_at := "" }

/-- Day-1 forward bar with high 112, low 97. -/
def c1bars : List Backtest.EodBar :=
  [⟨"2025-06-03", some 112, some 97, some 105⟩]

/-- The same bar with the low changed to 94. -/
def c1barsAmb : List Backtest.EodBar :=
  [⟨"2025-06-03", some 112, some 94, some 105⟩]

/-- An ambiguous trade for the skip-policy exclusion claim: entry 50,
target 55, stop 48, confidence 70, expected return 8. -/
def c2cand : CreamyRow :=
  { c1cand with
      instrument_id := "X2"
      entry_price := some 50
      target_price := some 55
      stop_loss := some 48
      confidence := some 70
      expected_return_pct := some 8 }

/-- A forward bar touching both levels of `c2cand`: high 56, low 47. -/
def c2bars : List Backtest.EodBar :=
  [⟨"2025-06-03", some 56, some 47, some 52⟩]

/-- The ambiguous trade used against the rate-sum claim. -/
def c3trade : Backtest.Trade :=
  ⟨"2025-06-02", c2cand, c2bars⟩

/-- A candidate with entry price 0 and a nonzero stored target. -/
def c4cand : CreamyRow :=
  { c1cand with entry_price := some 0, target_price := some 10 }

/-- An inverted candidate (target 90 below stop 110) whose window touches
both levels. -/
def c7cand : CreamyRow :=
  { c1cand with
      instrument_id := "X7"
      target_price := some 90
      stop_loss := some 110 }

/-- A bar with high 120 and low 80, touching both levels of `c7cand`. -/
def c7bars : List Backtest.EodBar :=
  [⟨"2025-06-03", some 120, some 80, some 100⟩]

/-- A candidate whose stored target and stop are both non-positive. -/
def c10cand : CreamyRow :=
  { c1cand with
      target_price := some 0
      stop_loss := some (-2) }

end ConcreteInputs

section Theorems

/-- `clamp` lands in the requested interval. -/
theorem clamp_mem (x lo hi : ℚ) (h : lo ≤ hi) :
    lo ≤ clamp x lo hi ∧ clamp x lo hi ≤ hi := by
  unfold clamp
  split_ifs <;> constructor <;> linarith

/-- Rounding never overshoots an integer upper bound. -/
theorem pyRound_le (q : ℚ) (n : ℤ) (h : q ≤ (n : ℚ)) : pyRound q ≤ n := by
  have hfl : ⌊q⌋ ≤ n := by
    have := Int.floor_le_floor h
    simpa using this
  simp only [pyRound]
  split_ifs with h1 h2 h3
  · exact hfl
  · rcases lt_or_eq_of_le hfl with h4 | h4
    · omega
    · exfalso
      have : q - (⌊q⌋ : ℚ) ≤ 0 := by
        rw [h4]

        linarith
      linarith
  · exact hfl
  · rcases lt_or_eq_of_le hfl with h4 | h4
    · omega
    · exfalso
      have : q - (⌊q⌋ : ℚ) ≤ 0 := by
        rw [h4]

        linarith
      linarith

/-- Rounding never undershoots an integer lower bound. -/
theorem le_pyRound (q : ℚ) (n : ℤ) (h : (n : ℚ) ≤ q) : n ≤ pyRound q := by
  have hfl : n ≤ ⌊q⌋ := by
    have := Int.floor_le_floor h
    simpa using this
  simp only [pyRound]
  split_ifs <;> omega

/-- C4 (amended): in enricher v2, a candidate whose entry price is
non-positive is skipped entirely and the row is left unmodified.  (Enricher
v1 has no such guard; see the counterexample.) -/
theorem C4_v2_guard :
    ∀ (mx : ℤ) (now : String) (r : CreamyRow),
      fNum r.entry_price ≤ 0 → EnrichV2.enrichV2row mx now r = r := by
  intro mx now r h
  simp [EnrichV2.enrichV2row, h]

/-- Witness for C4: the entry-0 candidate is left untouched by v2. -/
theorem C4_v2_guard_witness :
    fNum c4cand.entry_price ≤ 0 ∧
      EnrichV2.enrichV2row 10 "2025-12-14" c4cand = c4cand := by
  refine ⟨by norm_num [c4cand, c1cand, fNum], ?_⟩
  exact C4_v2_guard 10 "2025-12-14" c4cand (by norm_num [c4cand, c1cand, fNum])

/-- C4 counterexample: enricher v1 updates a candidate with entry price 0,
overwriting its stored target 10 with 0, so the claim fails for the v1
variant. -/
theorem C4_counterexample :
    (EnrichV1.enrichV1row "BALANCED" 0 0 "2025-12-14" c4cand).target_price = some 0 ∧
      c4cand.target_price = some 10 := by
  constructor
  · norm_num [EnrichV1.enrichV1row, c4cand, c1cand, fNum]
  · norm_num [c4cand, c1cand]

/-- C6 (amended): enricher v2 rebuilds the rationale from the unmodified
key fields (profile, display rank, entry), so enriching twice yields the
same rationale text as enriching once. -/
theorem C6_v2_idempotent :
    ∀ (mx : ℤ) (now1 now2 : String) (r : CreamyRow),
      (EnrichV2.enrichV2row mx now2 (EnrichV2.enrichV2row mx now1 r)).ai_reason =
        (EnrichV2.enrichV2row mx now1 r).ai_reason := by
  intro mx now1 now2 r
  by_cases h : fNum r.entry_price ≤ 0
  · simp [EnrichV2.enrichV2row, h]
  · simp [EnrichV2.enrichV2row, h]

/-- C5 (amended): in enricher v1 the min-max normalisation returns 0.5
whenever the best and worst ranking scores coincide, in particular for a
single-candidate group; in enricher v2 a sole candidate at display rank 1
receives strength 1, not 0.5. -/
theorem C5_strength_defaults :
    (∀ score smin smax : ℚ, smax ≤ smin →
        EnrichV1.norm_score score smin smax = 1/2) ∧
    (∀ r : CreamyRow,
        EnrichV1.norm_score (fNum r.ranking_score)
          (EnrichV1.v1smin r []) (EnrichV1.v1smax r []) = 1/2) ∧
    EnrichV2.strengthV2 1 1 = 1 := by
  refine ⟨?_, ?_, ?_⟩
  · intro score smin smax h
    simp [EnrichV1.norm_score, h]
  · intro r
    simp [EnrichV1.norm_score, EnrichV1.v1smin, EnrichV1.v1smax]
  · norm_num [EnrichV2.strengthV2]

/-- Witness for C5: `norm_score` at a concrete degenerate group. -/
theorem C5_strength_defaults_witness :
    (3 : ℚ) ≤ 3 ∧ EnrichV1.norm_score 5 3 3 = 1/2 :=
  ⟨le_refl 3, C5_strength_defaults.1 5 3 3 (le_refl 3)⟩

/-- C5 counterexample: in enricher v2, a single-candidate group (max
display rank 1, candidate rank 1) gets strength 1, not 0.5. -/
theorem C5_counterexample :
    EnrichV2.strengthV2 1 1 = 1 ∧ (1 : ℚ) ≠ 1/2 := by
  constructor
  · norm_num [EnrichV2.strengthV2]
  · norm_num

/-- C8 (amended): the confidence stored by enricher v1 is an integer in
[1, 99]; the confidence stored by enricher v2 for an enriched candidate
lies in [35, 95] but is the clamped unrounded value (only the rationale
text shows the rounded integer). -/
theorem C8_conf_bounds :
    (∀ (rc : String) (smin smax : ℚ) (now : String) (r : CreamyRow),
        ∃ k : ℤ, (EnrichV1.enrichV1row rc smin smax now r).confidence =
            some (k : ℚ) ∧ 1 ≤ k ∧ k ≤ 99) ∧
    (∀ (mx : ℤ) (now : String) (r : CreamyRow),
        0 < fNum r.entry_price →
        ∃ c : ℚ, (EnrichV2.enrichV2row mx now r).confidence = some c ∧
          35 ≤ c ∧ c ≤ 95) := by
  constructor
  · intro rc smin smax now r
    refine ⟨_, rfl, ?_, ?_⟩
    · exact le_pyRound _ 1 (by exact_mod_cast (clamp_mem _ 1 99 (by norm_num)).1)
    · exact pyRound_le _ 99 (by exact_mod_cast (clamp_mem _ 1 99 (by norm_num)).2)
  · intro mx now r h
    have h2 : ¬ (fNum r.entry_price ≤ 0) := not_le.mpr h
    obtain ⟨x, hx⟩ :
        ∃ x, (EnrichV2.enrichV2core r.profile_id (r.display_rank.getD 0) mx
            (fNum r.entry_price)).conf = clamp x 35 95 := ⟨_, rfl⟩
    refine ⟨clamp x 35 95, ?_, (clamp_mem x 35 95 (by norm_num)).1,
      (clamp_mem x 35 95 (by norm_num)).2⟩
    simp [EnrichV2.enrichV2row, h2, hx]

/-- Witness for C8: the bounds at a concrete candidate. -/
theorem C8_conf_bounds_witness :
    (∃ k : ℤ, (EnrichV1.enrichV1row "BALANCED" 0 0 "t" c1cand).confidence =
        some (k : ℚ) ∧ 1 ≤ k ∧ k ≤ 99) ∧
    (0 : ℚ) < fNum c1cand.entry_price ∧
    (∃ c : ℚ, (EnrichV2.enrichV2row 10 "t" c1cand).confidence = some c ∧
        35 ≤ c ∧ c ≤ 95) :=
  ⟨C8_conf_bounds.1 "BALANCED" 0 0 "t" c1cand,
    by norm_num [c1cand, fNum],
    C8_conf_bounds.2 10 "t" c1cand (by norm_num [c1cand, fNum])⟩

/-- C8 counterexample: enricher v2 stores the non-integer confidence
411/5 = 82.2 for a concrete candidate, so the stored value is not rounded
to an integer. -/
theorem C8_counterexample :
    (EnrichV2.enrichV2row 10 "t" c1cand).confidence = some (411/5) ∧
      ∀ k : ℤ, ((411 : ℚ)/5) ≠ (k : ℚ) := by
  constructor
  · have hr : EnrichV2.risk_from_profile_id "BALANCED" = "BALANCED" := by decide
    have hb : EnrichV2.BASE "BALANCED" = { roi := 9/2, rr := 9/5, conf := 76 } := by
      simp [EnrichV2.BASE]
    have hc : (EnrichV2.enrichV2core "BALANCED" 1 10 100).conf = 411/5 := by
      simp only [EnrichV2.enrichV2core, hr, hb, EnrichV2.strengthV2]
      norm_num [clamp]
    have h2 : ¬ (fNum c1cand.entry_price ≤ 0) := by norm_num [c1cand, fNum]
    simp [EnrichV2.enrichV2row, c1cand, fNum, hc]
    norm_num
  · intro k h
    rw [div_eq_iff (by norm_num : (5 : ℚ) ≠ 0)] at h
    have h5 : (411 : ℤ) = k * 5 := by exact_mod_cast h
    omega

/-- Evaluation of the two-decimal format at 2. -/
theorem fmt2_two : fmt2 (2 : ℚ) = "2.00" := by
  have h : pyRound ((2 : ℚ) * 100) = 200 := by norm_num [pyRound]
  simp [fmt2, h, twoDigits]
  decide

/-- Evaluation of the two-decimal format at 3/2. -/
theorem fmt2_3half : fmt2 ((3 : ℚ)/2) = "1.50" := by
  have h : pyRound ((3 : ℚ)/2 * 100) = 150 := by norm_num [pyRound]
  simp [fmt2, h, twoDigits]
  decide

/-- C6 counterexample: applying enricher v1's `patch_reason` twice with
identical metric inputs appends the ` [CONF=...][RR=...][RB=...]` suffix a
second time instead of replacing it, so repeated enrichment is not
idempotent on the rationale text. -/
theorem C6_counterexample :
    EnrichV1.patch_reason
        (EnrichV1.patch_reason "" 2 50 "BALANCED" ((3 : ℚ)/2))
        2 50 "BALANCED" ((3 : ℚ)/2) ≠
      EnrichV1.patch_reason "" 2 50 "BALANCED" ((3 : ℚ)/2) := by
  simp only [EnrichV1.patch_reason, fmt2_two, fmt2_3half]
  decide

open Backtest in
/-- C10: a candidate with non-positive stored target is never counted as
target-hit, one with non-positive stored stop is never counted as stop-hit,
and when both levels are non-positive (and forward bars exist) the outcome
is none with the realized return taken from the last close. -/
theorem C10_nonpositive_levels :
    (∀ (rule : AmbRule) (rd : String) (r : CreamyRow) (eods : List EodBar)
        (st : Stats), fNum r.target_price ≤ 0 →
        (step rule rd r eods st).tgt_hit = st.tgt_hit) ∧
    (∀ (rule : AmbRule) (rd : String) (r : CreamyRow) (eods : List EodBar)
        (st : Stats), fNum r.stop_loss ≤ 0 →
        (step rule rd r eods st).sl_hit = st.sl_hit) ∧
    (∀ (rule : AmbRule) (rd : String) (r : CreamyRow) (e0 : EodBar)
        (rest : List EodBar) (st : Stats),
        fNum r.target_price ≤ 0 → fNum r.stop_loss ≤ 0 →
        (step rule rd r (e0 :: rest) st).none_hit = st.none_hit + 1 ∧
        (step rule rd r (e0 :: rest) st).sum_realized = st.sum_realized +
          (if fNum r.entry_price ≠ 0 then
            pct (closeLastOf e0 rest - fNum r.entry_price) (fNum r.entry_price)
          else 0)) := by
  refine ⟨?_, ?_, ?_⟩
  · intro rule rd r eods st h
    have hT : ¬ (fNum r.target_price > 0) := not_lt.mpr h
    cases eods with
    | nil => simp [step]
    | cons e0 rest =>
      simp only [step]
      rw [if_neg (fun hc => hT hc.1.1), if_neg (fun hc => hT hc.1)]
      by_cases hS : fNum r.stop_loss > 0 ∧ minLowOf e0 rest ≤ fNum r.stop_loss
      · rw [if_pos hS]
      · rw [if_neg hS]
  · intro rule rd r eods st h
    have hS : ¬ (fNum r.stop_loss > 0) := not_lt.mpr h
    cases eods with
    | nil => simp [step]
    | cons e0 rest =>
      simp only [step]
      rw [if_neg (fun hc => hS hc.2.1)]
      by_cases hT : fNum r.target_price > 0 ∧ maxHighOf e0 rest ≥ fNum r.target_price
      · rw [if_pos hT]
      · rw [if_neg hT, if_neg (fun hc => hS hc.1)]
  · intro rule rd r e0 rest st ht hs
    have hT : ¬ (fNum r.target_price > 0) := not_lt.mpr ht
    have hS : ¬ (fNum r.stop_loss > 0) := not_lt.mpr hs
    simp only [step]
    rw [if_neg (fun hc => hT hc.1.1), if_neg (fun hc => hT hc.1),
      if_neg (fun hc => hS hc.1)]
    exact ⟨rfl, rfl⟩

open Backtest in
/-- C1 (amended): the end-to-end scenario.  With entry 100, target 110,
stop 95 and a day-1 bar of high 112 / low 97 the trade is target-hit with
realized +10%; with the low changed to 94 it is ambiguous, realized -5%
under stop_first and 2.5% under half_half, and under skip it is excluded
from the realized-return sum while still entering the trade count and the
confidence sum. -/
theorem C1_scenario :
    (∀ rule : AmbRule,
      (step rule "2025-06-02" c1cand c1bars initStats).tgt_hit = 1 ∧
      (step rule "2025-06-02" c1cand c1bars initStats).sum_realized = 10) ∧
    (∀ rule : AmbRule,
      (step rule "2025-06-02" c1cand c1barsAmb initStats).amb = 1) ∧
    (step AmbRule.stop_first "2025-06-02" c1cand c1barsAmb initStats).sum_realized = -5 ∧
    (step AmbRule.half_half "2025-06-02" c1cand c1barsAmb initStats).sum_realized = 5/2 ∧
    (step AmbRule.skip "2025-06-02" c1cand c1barsAmb initStats).sum_realized = 0 ∧
    (step AmbRule.skip "2025-06-02" c1cand c1barsAmb initStats).n = 1 ∧
    (step AmbRule.skip "2025-06-02" c1cand c1barsAmb initStats).sum_conf = 60 := by
  refine ⟨?_, ?_, ?_, ?_, ?_, ?_, ?_⟩
  · intro rule
    constructor <;>
      norm_num [step, initStats, maxHighOf, minLowOf, closeLastOf, pct,
        addDay, fNum, c1cand, c1bars]
  · intro rule
    cases rule <;>
      norm_num [step, initStats, maxHighOf, minLowOf, closeLastOf, pct,
        addDay, fNum, c1cand, c1barsAmb]
  all_goals
    norm_num [step, initStats, maxHighOf, minLowOf, closeLastOf, pct,
      addDay, fNum, c1cand, c1barsAmb]

open Backtest in
/-- C1 counterexample: under skip the ambiguous trade is not excluded
from all sums: it still contributes its expected return 10 to the
expected-return sum. -/
theorem C1_counterexample :
    (step AmbRule.skip "2025-06-02" c1cand c1barsAmb initStats).amb = 1 ∧
    (step AmbRule.skip "2025-06-02" c1cand c1barsAmb initStats).sum_roi = 10 ∧
    (step AmbRule.skip "2025-06-02" c1cand c1barsAmb initStats).sum_roi ≠
      initStats.sum_roi := by
  refine ⟨?_, ?_, ?_⟩ <;>
    norm_num [step, initStats, maxHighOf, minLowOf, closeLastOf, pct,
      addDay, fNum, c1cand, c1barsAmb]

open Backtest in
/-- C2 (amended): under the skip policy an ambiguous candidate is exactly
the ambiguous counter, the trade count and the edge, confidence and
expected-return sums plus one contribution each, with the realized-return
sum and the hit/win/lose counters unchanged. -/
theorem C2_skip_still_counted :
    ∀ (rd : String) (r : CreamyRow) (e0 : EodBar) (rest : List EodBar)
      (st : Stats),
      fNum r.target_price > 0 → maxHighOf e0 rest ≥ fNum r.target_price →
      fNum r.stop_loss > 0 → minLowOf e0 rest ≤ fNum r.stop_loss →
      step AmbRule.skip rd r (e0 :: rest) st =
        { st with
            days := addDay rd st.days
            n := st.n + 1
            amb := st.amb + 1
            sum_edge := st.sum_edge + (fNum r.expected_return_pct -
              (if fNum r.entry_price ≠ 0 then
                pct (fNum r.entry_price - fNum r.stop_loss) (fNum r.entry_price)
              else 0))
            sum_conf := st.sum_conf + fNum r.confidence
            sum_roi := st.sum_roi + fNum r.expected_return_pct } := by
  intro rd r e0 rest st h1 h2 h3 h4
  simp only [step]
  rw [if_pos ⟨⟨h1, h2⟩, h3, h4⟩]

open Backtest in
/-- Witness for C2 at a concrete ambiguous trade. -/
theorem C2_skip_still_counted_witness :
    fNum c2cand.target_price > 0 ∧
    maxHighOf ⟨"2025-06-03", some 56, some 47, some 52⟩ [] ≥ fNum c2cand.target_price ∧
    fNum c2cand.stop_loss > 0 ∧
    minLowOf ⟨"2025-06-03", some 56, some 47, some 52⟩ [] ≤ fNum c2cand.stop_loss ∧
    step AmbRule.skip "2025-06-02" c2cand
        (⟨"2025-06-03", some 56, some 47, some 52⟩ :: []) initStats =
      { initStats with
          days := addDay "2025-06-02" initStats.days
          n := initStats.n + 1
          amb := initStats.amb + 1
          sum_edge := initStats.sum_edge + (fNum c2cand.expected_return_pct -
            (if fNum c2cand.entry_price ≠ 0 then
              pct (fNum c2cand.entry_price - fNum c2cand.stop_loss)
                (fNum c2cand.entry_price)
            else 0))
          sum_conf := initStats.sum_conf + fNum c2cand.confidence
          sum_roi := initStats.sum_roi + fNum c2cand.expected_return_pct } := by
  refine ⟨?_, ?_, ?_, ?_, ?_⟩
  · norm_num [c2cand, c1cand, fNum]
  · norm_num [c2cand, c1cand, fNum, maxHighOf]
  · norm_num [c2cand, c1cand, fNum]
  · norm_num [c2cand, c1cand, fNum, minLowOf]
  · exact C2_skip_still_counted "2025-06-02" c2cand
      ⟨"2025-06-03", some 56, some 47, some 52⟩ [] initStats
      (by norm_num [c2cand, c1cand, fNum])
      (by norm_num [c2cand, c1cand, fNum, maxHighOf])
      (by norm_num [c2cand, c1cand, fNum])
      (by norm_num [c2cand, c1cand, fNum, minLowOf])

open Backtest in
/-- C2 counterexample: a concrete ambiguous candidate under skip still
has trade count 1, confidence sum 70 and ambiguous counter 1; only the
realized-return sum stays 0, refuting exclusion from all counters and
sums. -/
theorem C2_counterexample :
    fNum c2cand.target_price > 0 ∧
    maxHighOf ⟨"2025-06-03", some 56, some 47, some 52⟩ [] ≥ fNum c2cand.target_price ∧
    fNum c2cand.stop_loss > 0 ∧
    minLowOf ⟨"2025-06-03", some 56, some 47, some 52⟩ [] ≤ fNum c2cand.stop_loss ∧
    (runStats AmbRule.skip [⟨"2025-06-02", c2cand,
        [⟨"2025-06-03", some 56, some 47, some 52⟩]⟩]).n = 1 ∧
    (runStats AmbRule.skip [⟨"2025-06-02", c2cand,
        [⟨"2025-06-03", some 56, some 47, some 52⟩]⟩]).sum_conf = 70 ∧
    (runStats AmbRule.skip [⟨"2025-06-02", c2cand,
        [⟨"2025-06-03", some 56, some 47, some 52⟩]⟩]).amb = 1 ∧
    (runStats AmbRule.skip [⟨"2025-06-02", c2cand,
        [⟨"2025-06-03", some 56, some 47, some 52⟩]⟩]).sum_realized = 0 := by
  refine ⟨?_, ?_, ?_, ?_, ?_, ?_, ?_, ?_⟩ <;>
    norm_num [runStats, step, initStats, maxHighOf, minLowOf, closeLastOf,
      pct, addDay, fNum, c2cand, c1cand]

open Backtest in
/-- Under skip and half_half, each processed candidate increments exactly
one of the four outcome counters, and always the trade count. -/
theorem step_counts (rule : AmbRule) (h : rule ≠ AmbRule.stop_first)
    (rd : String) (r : CreamyRow) (eods : List EodBar) (st : Stats) :
    (step rule rd r eods st).tgt_hit + (step rule rd r eods st).sl_hit +
        (step rule rd r eods st).amb + (step rule rd r eods st).none_hit =
      st.tgt_hit + st.sl_hit + st.amb + st.none_hit + 1 ∧
    (step rule rd r eods st).n = st.n + 1 := by
  cases rule with
  | stop_first => exact absurd rfl h
  | skip =>
    cases eods with
    | nil => constructor <;> simp [step] <;> omega
    | cons e0 rest =>
      simp only [step]
      split_ifs <;> constructor <;> simp <;> omega
  | half_half =>
    cases eods with
    | nil => constructor <;> simp [step] <;> omega
    | cons e0 rest =>
      simp only [step]
      split_ifs <;> constructor <;> simp <;> omega

open Backtest in
/-- The outcome counters sum to the trade count along the fold, for skip
and half_half. -/
theorem foldl_counts (rule : AmbRule) (h : rule ≠ AmbRule.stop_first) :
    ∀ (ts : List Trade) (st : Stats),
      st.tgt_hit + st.sl_hit + st.amb + st.none_hit = st.n →
      (ts.foldl (fun s t => step rule t.rd t.cand t.eods s) st).tgt_hit +
          (ts.foldl (fun s t => step rule t.rd t.cand t.eods s) st).sl_hit +
          (ts.foldl (fun s t => step rule t.rd t.cand t.eods s) st).amb +
          (ts.foldl (fun s t => step rule t.rd t.cand t.eods s) st).none_hit =
        (ts.foldl (fun s t => step rule t.rd t.cand t.eods s) st).n := by
  intro ts
  induction ts with
  | nil => intro st h0; simpa using h0
  | cons t ts ih =>
    intro st h0
    simp only [List.foldl_cons]
    refine ih _ ?_
    have hc := step_counts rule h t.rd t.cand t.eods st
    omega

open Backtest in
/-- C3 (amended): under the skip and half_half policies the four emitted
rates sum to 100% for any nonzero trade count; under stop_first an
ambiguous trade is counted both as ambiguous and as stop-hit, so the sum is
100% plus the ambiguous rate (see the counterexample). -/
theorem C3_rates_sum :
    ∀ (rule : AmbRule) (trades : List Trade), rule ≠ AmbRule.stop_first →
      (runStats rule trades).n ≠ 0 →
      (mkRow (runStats rule trades)).tgt_hit_pct +
          (mkRow (runStats rule trades)).sl_hit_pct +
          (mkRow (runStats rule trades)).amb_pct +
          (mkRow (runStats rule trades)).none_pct = 100 := by
  intro rule trades hrule hn
  have hc : (runStats rule trades).tgt_hit + (runStats rule trades).sl_hit +
      (runStats rule trades).amb + (runStats rule trades).none_hit =
      (runStats rule trades).n :=
    foldl_counts rule hrule trades initStats (by simp [initStats])
  have hnQ : ((runStats rule trades).n : ℚ) ≠ 0 := by exact_mod_cast hn
  simp only [mkRow, pct]
  rw [if_pos hnQ, if_pos hnQ, if_pos hnQ, if_pos hnQ]
  have hcQ : ((runStats rule trades).tgt_hit : ℚ) + (runStats rule trades).sl_hit +
      (runStats rule trades).amb + (runStats rule trades).none_hit =
      ((runStats rule trades).n : ℚ) := by exact_mod_cast hc
  field_simp
  linarith [hcQ]

open Backtest in
/-- Witness for C3 at a one-trade profile under skip. -/
theorem C3_rates_sum_witness :
    AmbRule.skip ≠ AmbRule.stop_first ∧
    (runStats AmbRule.skip [c3trade]).n ≠ 0 ∧
    (mkRow (runStats AmbRule.skip [c3trade])).tgt_hit_pct +
        (mkRow (runStats AmbRule.skip [c3trade])).sl_hit_pct +
        (mkRow (runStats AmbRule.skip [c3trade])).amb_pct +
        (mkRow (runStats AmbRule.skip [c3trade])).none_pct = 100 := by
  refine ⟨by simp, ?_, ?_⟩
  · norm_num [runStats, step, initStats, maxHighOf, minLowOf, closeLastOf,
      pct, addDay, fNum, c3trade, c2cand, c1cand, c2bars]
  · exact C3_rates_sum AmbRule.skip [c3trade] (by simp)
      (by norm_num [runStats, step, initStats, maxHighOf, minLowOf,
        closeLastOf, pct, addDay, fNum, c3trade, c2cand, c1cand, c2bars])

open Backtest in
/-- C3 counterexample: one ambiguous trade under stop_first gives
stop-hit 100% and ambiguous 100%, so the four rates sum to 200%. -/
theorem C3_counterexample :
    (mkRow (runStats AmbRule.stop_first [c3trade])).tgt_hit_pct +
        (mkRow (runStats AmbRule.stop_first [c3trade])).sl_hit_pct +
        (mkRow (runStats AmbRule.stop_first [c3trade])).amb_pct +
        (mkRow (runStats AmbRule.stop_first [c3trade])).none_pct = 200 ∧
    (runStats AmbRule.stop_first [c3trade]).n = 1 := by
  constructor <;>
    norm_num [mkRow, runStats, step, initStats, maxHighOf, minLowOf,
      closeLastOf, pct, addDay, fNum, c3trade, c2cand, c1cand, c2bars]

open Backtest in
/-- Every processed candidate increments the trade count, under every
policy. -/
theorem step_n (rule : AmbRule) (rd : String) (r : CreamyRow)
    (eods : List EodBar) (st : Stats) :
    (step rule rd r eods st).n = st.n + 1 := by
  cases eods with
  | nil => simp [step]
  | cons e0 rest =>
    simp only [step]
    split_ifs <;> cases rule <;> simp

open Backtest in
/-- The trade count after a fold is the initial count plus the number of
trades, under every policy. -/
theorem runStats_n (rule : AmbRule) :
    ∀ (ts : List Trade) (st : Stats),
      (ts.foldl (fun s t => step rule t.rd t.cand t.eods s) st).n =
        st.n + ts.length := by
  intro ts
  induction ts with
  | nil => intro st; simp
  | cons t ts ih =>
    intro st
    simp only [List.foldl_cons, ih, step_n, List.length_cons]
    omega

open Backtest in
/-- C7 (amended): for an ambiguous candidate with non-negative entry and
stop not above target, the realized return under stop_first is at most the
realized return under half_half (the restriction is necessary: see the
counterexample); and the trade count under skip never exceeds the trade
count under any policy (they are equal). -/
theorem C7_policy_order :
    (∀ (rd : String) (r : CreamyRow) (e0 : EodBar) (rest : List EodBar)
        (st : Stats),
        0 ≤ fNum r.entry_price → fNum r.stop_loss ≤ fNum r.target_price →
        fNum r.target_price > 0 → maxHighOf e0 rest ≥ fNum r.target_price →
        fNum r.stop_loss > 0 → minLowOf e0 rest ≤ fNum r.stop_loss →
        (step AmbRule.stop_first rd r (e0 :: rest) st).sum_realized ≤
          (step AmbRule.half_half rd r (e0 :: rest) st).sum_realized) ∧
    (∀ (rule : AmbRule) (trades : List Trade),
        (runStats AmbRule.skip trades).n ≤ (runStats rule trades).n) := by
  constructor
  · intro rd r e0 rest st h0 hts h1 h2 h3 h4
    have hcond : (fNum r.target_price > 0 ∧
          maxHighOf e0 rest ≥ fNum r.target_price) ∧
        fNum r.stop_loss > 0 ∧ minLowOf e0 rest ≤ fNum r.stop_loss :=
      ⟨⟨h1, h2⟩, h3, h4⟩
    simp only [step]
    rw [if_pos hcond, if_pos hcond]
    by_cases he : fNum r.entry_price = 0
    · simp [he]
    · have hee : 0 < fNum r.entry_price := lt_of_le_of_ne h0 (Ne.symm he)
      have hinv : (0 : ℚ) ≤ (fNum r.entry_price)⁻¹ :=
        le_of_lt (inv_pos.mpr hee)
      have h6 : (fNum r.stop_loss - fNum r.entry_price) *
            (fNum r.entry_price)⁻¹ ≤
          (fNum r.target_price - fNum r.entry_price) *
            (fNum r.entry_price)⁻¹ :=
        mul_le_mul_of_nonneg_right (by linarith) hinv
      simp [pct, he, div_eq_mul_inv]
      ring_nf
      ring_nf at h6
      nlinarith [h6]
  · intro rule trades
    have h1 := runStats_n AmbRule.skip trades initStats
    have h2 := runStats_n rule trades initStats
    simp only [runStats]
    omega

open Backtest in
/-- Witness for C7 at a concrete ambiguous trade. -/
theorem C7_policy_order_witness :
    (0 : ℚ) ≤ fNum c2cand.entry_price ∧
    fNum c2cand.stop_loss ≤ fNum c2cand.target_price ∧
    (step AmbRule.stop_first "2025-06-02" c2cand
        (⟨"2025-06-03", some 56, some 47, some 52⟩ :: []) initStats).sum_realized ≤
      (step AmbRule.half_half "2025-06-02" c2cand
        (⟨"2025-06-03", some 56, some 47, some 52⟩ :: []) initStats).sum_realized ∧
    (runStats AmbRule.skip [c3trade]).n ≤
      (runStats AmbRule.stop_first [c3trade]).n := by
  refine ⟨by norm_num [c2cand, c1cand, fNum], by norm_num [c2cand, c1cand, fNum],
    ?_, C7_policy_order.2 AmbRule.stop_first [c3trade]⟩
  exact C7_policy_order.1 "2025-06-02" c2cand
    ⟨"2025-06-03", some 56, some 47, some 52⟩ [] initStats
    (by norm_num [c2cand, c1cand, fNum])
    (by norm_num [c2cand, c1cand, fNum])
    (by norm_num [c2cand, c1cand, fNum])
    (by norm_num [c2cand, c1cand, fNum, maxHighOf])
    (by norm_num [c2cand, c1cand, fNum])
    (by norm_num [c2cand, c1cand, fNum, minLowOf])

open Backtest in
/-- C7 counterexample: with entry 100, target 90 and stop 110 (both
levels touched), stop_first realizes +10% while half_half realizes 0%, so
stop_first is not always below half_half. -/
theorem C7_counterexample :
    fNum c7cand.target_price > 0 ∧
    maxHighOf ⟨"2025-06-03", some 120, some 80, some 100⟩ [] ≥
      fNum c7cand.target_price ∧
    fNum c7cand.stop_loss > 0 ∧
    minLowOf ⟨"2025-06-03", some 120, some 80, some 100⟩ [] ≤
      fNum c7cand.stop_loss ∧
    (step AmbRule.stop_first "2025-06-02" c7cand c7bars initStats).sum_realized = 10 ∧
    (step AmbRule.half_half "2025-06-02" c7cand c7bars initStats).sum_realized = 0 ∧
    ¬ ((step AmbRule.stop_first "2025-06-02" c7cand c7bars initStats).sum_realized ≤
        (step AmbRule.half_half "2025-06-02" c7cand c7bars initStats).sum_realized) := by
  refine ⟨?_, ?_, ?_, ?_, ?_, ?_, ?_⟩ <;>
    norm_num [step, initStats, maxHighOf, minLowOf, closeLastOf, pct,
      addDay, fNum, c7cand, c1cand, c7bars]

open Backtest in
/-- Witness for C10 at a concrete candidate whose both levels are
non-positive. -/
theorem C10_witness :
    fNum c10cand.target_price ≤ 0 ∧ fNum c10cand.stop_loss ≤ 0 ∧
    ((step AmbRule.stop_first "2025-06-02" c10cand
        (⟨"2025-06-03", some 112, some 97, some 105⟩ :: []) initStats).none_hit =
      initStats.none_hit + 1 ∧
    (step AmbRule.stop_first "2025-06-02" c10cand
        (⟨"2025-06-03", some 112, some 97, some 105⟩ :: []) initStats).sum_realized =
      initStats.sum_realized +
        (if fNum c10cand.entry_price ≠ 0 then
          pct (closeLastOf ⟨"2025-06-03", some 112, some 97, some 105⟩ [] -
            fNum c10cand.entry_price) (fNum c10cand.entry_price)
        else 0)) := by
  refine ⟨by norm_num [c10cand, c1cand, fNum], by norm_num [c10cand, c1cand, fNum], ?_⟩
  exact C10_nonpositive_levels.2.2 AmbRule.stop_first "2025-06-02" c10cand
    ⟨"2025-06-03", some 112, some 97, some 105⟩ [] initStats
    (by norm_num [c10cand, c1cand, fNum])
    (by norm_num [c10cand, c1cand, fNum])

open Expand in
/-- Row counts add over list append. -/
theorem countCreamy_append (a b : List CreamyRow) (env rd pid : String) :
    countCreamy (a ++ b) env rd pid =
      countCreamy a env rd pid + countCreamy b env rd pid := by
  simp [countCreamy, List.filter_append]

open Expand in
/-- Cloning preserves the env/date/creamy filter. -/
theorem creamyB_cloneRow (env rd pid now : String) (r : CreamyRow) :
    creamyB env rd (cloneRow pid now r) = creamyB env rd r := by
  simp [creamyB, cloneRow]

open Expand in
/-- The clones inserted for a destination profile are exactly as many as
the base profile's creamy rows, and all match the destination profile. -/
theorem cloneRows_count (env rd base pid now : String) :
    ∀ acc : List CreamyRow,
      countCreamy (cloneRows acc env rd base pid now) env rd pid =
        countCreamy acc env rd base := by
  intro acc
  induction acc with
  | nil => rfl
  | cons x xs ih =>
    simp only [cloneRows, countCreamy, List.filter_cons] at ih ⊢
    by_cases hq : (creamyB env rd x && (x.profile_id == base)) = true
    · have hx : creamyB env rd x = true := by
        revert hq
        cases creamyB env rd x <;> simp
      have hcl : (creamyB env rd (cloneRow pid now x) &&
          ((cloneRow pid now x).profile_id == pid)) = true := by
        rw [creamyB_cloneRow, hx]
        simp [cloneRow]
      simp only [hq, if_true, List.map_cons, List.filter_cons, hcl,
        List.length_cons]
      omega
    · have hq' : (creamyB env rd x && (x.profile_id == base)) = false := by
        revert hq
        cases (creamyB env rd x && (x.profile_id == base)) <;> simp
      simp only [hq', Bool.false_eq_true, if_false]
      exact ih

open Expand in
/-- One expansion step never removes rows. -/
theorem expandStep_count_le (env rd base now : String) (acc : List CreamyRow)
    (pid x : String) :
    countCreamy acc env rd x ≤
      countCreamy (expandStep env rd base now acc pid) env rd x := by
  unfold expandStep
  split_ifs <;> simp [countCreamy_append]

open Expand in
/-- The expansion fold never removes rows. -/
theorem foldl_count_le (env rd base now : String) :
    ∀ (l : List String) (acc : List CreamyRow) (x : String),
      countCreamy acc env rd x ≤
        countCreamy (l.foldl (expandStep env rd base now) acc) env rd x := by
  intro l
  induction l with
  | nil => intro acc x; simp
  | cons p l ih =>
    intro acc x
    simp only [List.foldl_cons]
    exact le_trans (expandStep_count_le env rd base now acc p x) (ih _ x)

open Expand in
/-- After its own expansion step, a non-base profile has at least one
creamy row, provided the base profile has one. -/
theorem expandStep_progress (env rd base now : String) (acc : List CreamyRow)
    (pid : String) (hne : pid ≠ base)
    (hb : 0 < countCreamy acc env rd base) :
    0 < countCreamy (expandStep env rd base now acc pid) env rd pid := by
  unfold expandStep
  rw [if_neg hne]
  by_cases h : 0 < countCreamy acc env rd pid
  · rw [if_pos h]
    exact h
  · rw [if_neg h]
    rw [countCreamy_append, cloneRows_count]
    omega

open Expand in
/-- After the expansion fold every listed profile has at least one creamy
row, provided the base profile started with one. -/
theorem expand_fold_pos (env rd base now : String) :
    ∀ (l : List String) (acc : List CreamyRow),
      0 < countCreamy acc env rd base →
      ∀ pid ∈ l,
        0 < countCreamy (l.foldl (expandStep env rd base now) acc) env rd pid := by
  intro l
  induction l with
  | nil => intro acc _ pid hpid; simp at hpid
  | cons p l ih =>
    intro acc hb pid hpid
    simp only [List.foldl_cons]
    have hb2 : 0 < countCreamy (expandStep env rd base now acc p) env rd base :=
      lt_of_lt_of_le hb (expandStep_count_le env rd base now acc p base)
    rcases List.mem_cons.mp hpid with h | h
    · subst h
      have hstep : 0 < countCreamy (expandStep env rd base now acc pid)
          env rd pid := by
        by_cases hpb : pid = base
        · rw [hpb]
          simpa [expandStep] using hb
        · exact expandStep_progress env rd base now acc pid hpb hb
      exact lt_of_lt_of_le hstep (foldl_count_le env rd base now l _ pid)
    · exact ih _ hb2 pid h

open Expand in
/-- The base-profile fold returns an element of the candidate list (or
its start value). -/
theorem pickBetter_fold_mem (rows : List CreamyRow) (env rd : String) :
    ∀ (l : List String) (o : Option String) (b : String),
      l.foldl (pickBetter rows env rd) o = some b →
      b ∈ l ∨ o = some b := by
  intro l
  induction l with
  | nil => intro o b h; right; simpa using h
  | cons p l ih =>
    intro o b h
    simp only [List.foldl_cons] at h
    rcases ih _ b h with h2 | h2
    · left
      exact List.mem_cons_of_mem p h2
    · cases o with
      | none =>
        simp only [pickBetter] at h2
        left
        have hpb : p = b := by simpa using h2
        rw [hpb]
        exact List.mem_cons_self b l
      | some x =>
        simp only [pickBetter] at h2
        by_cases hc : countCreamy rows env rd p > countCreamy rows env rd x ∨
            (countCreamy rows env rd p = countCreamy rows env rd x ∧ p < x)
        · rw [if_pos hc] at h2
          left
          have hpb : p = b := by simpa using h2
          rw [hpb]
          exact List.mem_cons_self b l
        · rw [if_neg hc] at h2
          right
          exact h2

open Expand in
/-- A profile listed by the group-by has at least one creamy row. -/
theorem mem_creamyPids_pos (rows : List CreamyRow) (env rd pid : String)
    (h : pid ∈ creamyPids rows env rd) :
    0 < countCreamy rows env rd pid := by
  simp only [creamyPids, List.mem_dedup, List.mem_map] at h
  obtain ⟨r, hr, hpr⟩ := h
  have hr2 := List.mem_filter.mp hr
  have hmem : r ∈ rows.filter fun q => creamyB env rd q && (q.profile_id == pid) := by
    refine List.mem_filter.mpr ⟨hr2.1, ?_⟩
    simp [hr2.2, hpr]
  exact List.length_pos_of_mem hmem

open Expand in
/-- A profile with a creamy row is listed by the group-by. -/
theorem pos_mem_creamyPids (rows : List CreamyRow) (env rd pid : String)
    (h : 0 < countCreamy rows env rd pid) :
    pid ∈ creamyPids rows env rd := by
  unfold countCreamy at h
  obtain ⟨r, hr⟩ := List.exists_mem_of_length_pos h
  have hr2 := List.mem_filter.mp hr
  have hb := hr2.2
  simp only [Bool.and_eq_true, beq_iff_eq] at hb
  simp only [creamyPids, List.mem_dedup, List.mem_map]
  exact ⟨r, List.mem_filter.mpr ⟨hr2.1, hb.1⟩, hb.2⟩

open Expand in
/-- The base-profile fold preserves definedness. -/
theorem pickBetter_fold_isSome (rows : List CreamyRow) (env rd : String) :
    ∀ (l : List String) (o : Option String), o.isSome →
      (l.foldl (pickBetter rows env rd) o).isSome := by
  intro l
  induction l with
  | nil => intro o h; simpa using h
  | cons p l ih =>
    intro o h
    simp only [List.foldl_cons]
    refine ih _ ?_
    cases o with
    | none => simp at h
    | some x =>
      simp only [pickBetter]
      split_ifs <;> simp

open Expand in
/-- When the pair has creamy rows, a base profile is found. -/
theorem basePick_isSome (rows : List CreamyRow) (env rd : String)
    (h : creamyPids rows env rd ≠ []) :
    ∃ b, basePick rows env rd = some b := by
  unfold basePick
  cases hc : creamyPids rows env rd with
  | nil => exact absurd hc h
  | cons p l =>
    have : (l.foldl (pickBetter rows env rd) (some p)).isSome := by
      refine pickBetter_fold_isSome rows env rd l (some p) rfl
    simp only [List.foldl_cons]
    obtain ⟨b, hb⟩ := Option.isSome_iff_exists.mp this
    exact ⟨b, by simpa [pickBetter] using hb⟩

open Expand in
/-- An expansion step is a no-op for the base profile and for profiles
that already have a creamy row. -/
theorem expandStep_noop (env rd base now : String) (acc : List CreamyRow)
    (pid : String)
    (h : pid = base ∨ 0 < countCreamy acc env rd pid) :
    expandStep env rd base now acc pid = acc := by
  unfold expandStep
  rcases h with h | h
  · rw [if_pos h]
  · by_cases hpb : pid = base
    · rw [if_pos hpb]
    · rw [if_neg hpb, if_pos h]

open Expand in
/-- The expansion fold is a no-op when every listed profile is the base
or already has a creamy row. -/
theorem foldl_noop (env rd base now : String) :
    ∀ (l : List String) (acc : List CreamyRow),
      (∀ pid ∈ l, pid = base ∨ 0 < countCreamy acc env rd pid) →
      l.foldl (expandStep env rd base now) acc = acc := by
  intro l
  induction l with
  | nil => intro acc _; rfl
  | cons p l ih =>
    intro acc h
    have hp : expandStep env rd base now acc p = acc :=
      expandStep_noop env rd base now acc p (h p (List.mem_cons_self p l))
    simp only [List.foldl_cons, hp]
    exact ih acc fun pid hpid => h pid (List.mem_cons_of_mem p hpid)

open Expand in
/-- Running the expansion a second time changes nothing: after the first
run every listed profile has a creamy row. -/
theorem expand_idem (profiles : List String) (env rd now1 now2 : String)
    (rows : List CreamyRow) :
    expand profiles env rd now2 (expand profiles env rd now1 rows) =
      expand profiles env rd now1 rows := by
  cases h1 : basePick rows env rd with
  | none => simp [expand, h1]
  | some b1 =>
    have hb1 : 0 < countCreamy rows env rd b1 := by
      refine mem_creamyPids_pos rows env rd b1 ?_
      rcases pickBetter_fold_mem rows env rd (creamyPids rows env rd)
          Option.none b1 h1 with h | h
      · exact h
      · simp at h
    have hR1 : expand profiles env rd now1 rows =
        profiles.foldl (expandStep env rd b1 now1) rows := by
      simp [expand, h1]
    have hR1b1 : 0 < countCreamy (expand profiles env rd now1 rows) env rd b1 := by
      rw [hR1]
      exact lt_of_lt_of_le hb1 (foldl_count_le env rd b1 now1 profiles rows b1)
    have hall : ∀ pid ∈ profiles,
        0 < countCreamy (expand profiles env rd now1 rows) env rd pid := by
      rw [hR1]
      exact expand_fold_pos env rd b1 now1 profiles rows hb1
    obtain ⟨b2, hb2⟩ := basePick_isSome (expand profiles env rd now1 rows) env rd
      (List.ne_nil_of_mem (pos_mem_creamyPids _ env rd b1 hR1b1))
    conv_lhs => rw [expand, hb2]
    exact foldl_noop env rd b2 now2 profiles _
      fun pid hpid => Or.inr (hall pid hpid)

/-- C9: Profile Expansion is idempotent: a second run on the same
(environment, run-date) leaves the table unchanged, so the total candidate
row count equals that of a single run. -/
theorem C9_expand_idempotent :
    ∀ (profiles : List String) (env rd now1 now2 : String)
      (rows : List CreamyRow),
      Expand.expand profiles env rd now2
          (Expand.expand profiles env rd now1 rows) =
        Expand.expand profiles env rd now1 rows ∧
      (Expand.expand profiles env rd now2
          (Expand.expand profiles env rd now1 rows)).length =
        (Expand.expand profiles env rd now1 rows).length := by
  intro profiles env rd now1 now2 rows
  have h := expand_idem profiles env rd now1 now2 rows
  exact ⟨h, by rw [h]⟩

end Theorems
